import Mathlib

set_option maxRecDepth 4500

/-!
Verification of the EEPROM-backed configuration store in `src/Storage.cpp`
(`validateEEPROMData`, `storageSetup`, `storageFactoryReset`,
`loadCoffeeConfig`, `saveCoffeeConfig`, `SetDefault`, `storageCommit`).

The C++ code serializes a `coffee_config` struct to a JSON text via
ArduinoJson, stores the text (null-terminated) at offset 0 of a 4096-byte
EEPROM region, and reads it back.  The shallow embedding below models:

* EEPROM bytes as a `List Char` (one `Char` per byte; the code only ever
  stores ASCII text, the erase pattern 0xFF and the 0x00 terminator);
* the ArduinoJson document as an ordered association list of
  key/value pairs (`JVal`), with `serializeJson` as a character-level
  printer and `deserializeJson` as a character-level recursive-descent
  parser (fuel-indexed for nested values; trailing input after a complete
  root value is ignored, as in the library);
* `double` fields as `Int` (the printed decimal form of floating-point
  values is outside the scope of this embedding; no claim here depends on
  fractional numeric values);
* the EEPROM driver as part of a `Machine` state: `flushOk` is the result
  the driver reports for a physical flush, `beginOk` the result of
  `EEPROM.begin`, and `flushes` a log recording, for every physical flush,
  the value of the `skipHeaterISR` guard at that moment plus the reported
  outcome.  ArduinoJson pool-capacity exhaustion and the ArduinoJson
  nesting limit are not modelled.
-/

/-- The byte 0x7B, the leading marker of the serialized encoding. -/
def lbrace : Char := Char.ofNat 123

/-- The byte 0x7D, closing an object of the serialized encoding. -/
def rbrace : Char := Char.ofNat 125

/-- The 0x00 terminator byte written after the serialized text. -/
def nulChar : Char := Char.ofNat 0

/-- The 0xFF flash blank/erase pattern used by `storageFactoryReset`. -/
def blankChar : Char := Char.ofNat 255

/-- A JSON value as held by an ArduinoJson document. -/
inductive JVal where
  | jbool (b : Bool)
  | jnum (n : Int)
  | jstr (s : List Char)
  | jnull
  | jarr (elems : List JVal)
  | jobj (members : List (List Char × JVal))

/-- True on the value shapes the program itself stores in a document. -/
def scalarVal : JVal → Bool
  | JVal.jbool _ => true
  | JVal.jnum _ => true
  | JVal.jstr _ => true
  | _ => false

/-- Serialization of one character of a JSON string, with the escaping
ArduinoJson applies to the quote and backslash characters.  (Control
characters never occur in the strings the program stores.) -/
def escChar (c : Char) : List Char :=
  if c = '"' then ['\\', '"']
  else if c = '\\' then ['\\', '\\']
  else [c]

/-- Serialization of the body of a JSON string. -/
def escString : List Char → List Char
  | [] => []
  | c :: cs => escChar c ++ escString cs

/-- Serialization of a JSON string, quotes included. -/
def printStr (s : List Char) : List Char :=
  '"' :: (escString s ++ ['"'])

/-- Decimal digits of `n`, most significant first.  The fuel argument only
serves structural recursion; any `fuel > n` yields the digits. -/
def natToCharsAux : Nat → Nat → List Char
  | 0, _ => []
  | fuel + 1, n =>
    if n < 10 then [Nat.digitChar n]
    else natToCharsAux fuel (n / 10) ++ [Nat.digitChar (n % 10)]

/-- Decimal representation of a natural number. -/
def natToChars (n : Nat) : List Char := natToCharsAux (n + 1) n

/-- Decimal representation of an integer (serialization of a numeric
field). -/
def printNum (n : Int) : List Char :=
  if n < 0 then '-' :: natToChars n.natAbs else natToChars n.toNat

/-- Serialization of a single JSON value.  The program only ever places
scalar values in a document, so the nested cases are unreachable on the
verified paths and serialize to nothing. -/
def printVal : JVal → List Char
  | JVal.jbool true => ['t', 'r', 'u', 'e']
  | JVal.jbool false => ['f', 'a', 'l', 's', 'e']
  | JVal.jnull => ['n', 'u', 'l', 'l']
  | JVal.jnum n => printNum n
  | JVal.jstr s => printStr s
  | JVal.jarr _ => []
  | JVal.jobj _ => []

/-- Serialization of the members of an object, including the closing
brace (the opening brace is emitted by `printDoc`). -/
def printMembersAux : List (List Char × JVal) → List Char
  | [] => [rbrace]
  | [(k, v)] => printStr k ++ ':' :: (printVal v ++ [rbrace])
  | (k, v) :: m2 :: ms =>
    printStr k ++ ':' :: (printVal v ++ ',' :: printMembersAux (m2 :: ms))

/-- `serializeJson` of a flat document: the minified JSON object text. -/
def printDoc (ms : List (List Char × JVal)) : List Char :=
  lbrace :: printMembersAux ms

/-- JSON whitespace. -/
def isWsChar (c : Char) : Bool :=
  c = ' ' || c = Char.ofNat 10 || c = Char.ofNat 9 || c = Char.ofNat 13

/-- Skip leading JSON whitespace. -/
def skipWs : List Char → List Char
  | [] => []
  | c :: cs => if isWsChar c then skipWs cs else c :: cs

/-- Unescape a character following a backslash in a JSON string. -/
def unescChar (c : Char) : Option Char :=
  if c = '"' then some '"'
  else if c = '\\' then some '\\'
  else if c = '/' then some '/'
  else if c = 'n' then some (Char.ofNat 10)
  else if c = 'r' then some (Char.ofNat 13)
  else if c = 't' then some (Char.ofNat 9)
  else if c = 'b' then some (Char.ofNat 8)
  else if c = 'f' then some (Char.ofNat 12)
  else none

/-- Parse the body of a JSON string after the opening quote; the flag
records whether the previous character was an unconsumed backslash.
Returns the decoded characters and the input after the closing quote. -/
def parseStrBodyAux : Bool → List Char → Option (List Char × List Char)
  | _, [] => none
  | true, e :: cs =>
    match unescChar e with
    | none => none
    | some d =>
      match parseStrBodyAux false cs with
      | none => none
      | some (s, r) => some (d :: s, r)
  | false, c :: cs =>
    if c = '"' then some ([], cs)
    else if c = '\\' then parseStrBodyAux true cs
    else
      match parseStrBodyAux false cs with
      | none => none
      | some (s, r) => some (c :: s, r)

/-- Parse the body of a JSON string after the opening quote. -/
def parseStrBody (cs : List Char) : Option (List Char × List Char) :=
  parseStrBodyAux false cs

/-- Decimal digit test. -/
def isDigitCh (c : Char) : Bool := 48 ≤ c.toNat && c.toNat ≤ 57

/-- Whether the input begins with a decimal digit. -/
def headDigit : List Char → Bool
  | [] => false
  | c :: _ => isDigitCh c

/-- Split off the maximal leading run of decimal digits. -/
def takeDigits : List Char → List Char × List Char
  | [] => ([], [])
  | c :: cs =>
    if isDigitCh c then
      let p := takeDigits cs
      (c :: p.1, p.2)
    else ([], c :: cs)

/-- Numeric value of a digit run, most significant digit first. -/
def digitsVal (ds : List Char) : Nat :=
  ds.foldl (fun a c => a * 10 + (c.toNat - 48)) 0

/-- Parse a nonempty run of decimal digits as a natural number. -/
def parseNatTok (cs : List Char) : Option (Nat × List Char) :=
  let p := takeDigits cs
  if p.1 = [] then none else some (digitsVal p.1, p.2)

/-- Parse an integer numeric token (optional leading minus sign). -/
def parseNumTok : List Char → Option (Int × List Char)
  | [] => none
  | c :: cs =>
    if c = '-' then
      match parseNatTok cs with
      | none => none
      | some (m, r) => some (-(m : Int), r)
    else
      match parseNatTok (c :: cs) with
      | none => none
      | some (m, r) => some ((m : Int), r)

/-- Consume an expected literal character sequence. -/
def expectChars : List Char → List Char → Option (List Char)
  | [], cs => some cs
  | _ :: _, [] => none
  | e :: es, c :: cs => if c = e then expectChars es cs else none

mutual

/-- Parse one JSON value (the recursive core of `deserializeJson`).  The
fuel bounds the recursion; any fuel exceeding the input length suffices. -/
def parseVal : Nat → List Char → Option (JVal × List Char)
  | 0, _ => none
  | Nat.succ fuel, cs =>
    match skipWs cs with
    | [] => none
    | c :: cs1 =>
      if c = '"' then
        match parseStrBody cs1 with
        | none => none
        | some (s, r) => some (JVal.jstr s, r)
      else if c = lbrace then
        match skipWs cs1 with
        | [] => none
        | c2 :: cs2 =>
          if c2 = rbrace then some (JVal.jobj [], cs2)
          else
            match parseMembers fuel (c2 :: cs2) with
            | none => none
            | some (ms, r) => some (JVal.jobj ms, r)
      else if c = '[' then
        match skipWs cs1 with
        | [] => none
        | c2 :: cs2 =>
          if c2 = ']' then some (JVal.jarr [], cs2)
          else
            match parseElems fuel (c2 :: cs2) with
            | none => none
            | some (vs, r) => some (JVal.jarr vs, r)
      else if c = 't' then
        match expectChars ['r', 'u', 'e'] cs1 with
        | none => none
        | some r => some (JVal.jbool true, r)
      else if c = 'f' then
        match expectChars ['a', 'l', 's', 'e'] cs1 with
        | none => none
        | some r => some (JVal.jbool false, r)
      else if c = 'n' then
        match expectChars ['u', 'l', 'l'] cs1 with
        | none => none
        | some r => some (JVal.jnull, r)
      else
        match parseNumTok (c :: cs1) with
        | none => none
        | some (n, r) => some (JVal.jnum n, r)

/-- Parse the members of an object after its opening brace, consuming the
closing brace. -/
def parseMembers : Nat → List Char → Option (List (List Char × JVal) × List Char)
  | 0, _ => none
  | Nat.succ fuel, cs =>
    match skipWs cs with
    | [] => none
    | c :: cs1 =>
      if c = '"' then
        match parseStrBody cs1 with
        | none => none
        | some (k, r1) =>
          match skipWs r1 with
          | [] => none
          | c2 :: r2 =>
            if c2 = ':' then
              match parseVal fuel r2 with
              | none => none
              | some (v, r3) =>
                match skipWs r3 with
                | [] => none
                | c4 :: r4 =>
                  if c4 = ',' then
                    match parseMembers fuel r4 with
                    | none => none
                    | some (ms, r5) => some ((k, v) :: ms, r5)
                  else if c4 = rbrace then some ([(k, v)], r4)
                  else none
            else none
      else none

/-- Parse the elements of an array after its opening bracket, consuming
the closing bracket. -/
def parseElems : Nat → List Char → Option (List JVal × List Char)
  | 0, _ => none
  | Nat.succ fuel, cs =>
    match parseVal fuel cs with
    | none => none
    | some (v, r) =>
      match skipWs r with
      | [] => none
      | c2 :: r2 =>
        if c2 = ',' then
          match parseElems fuel r2 with
          | none => none
          | some (vs, r3) => some (v :: vs, r3)
        else if c2 = ']' then some ([v], r2)
        else none

end

/-- `deserializeJson`: parse one root value from the input; input after a
complete root value is ignored, as the library does for streams. -/
def parseTop (cs : List Char) : Option (JVal × List Char) :=
  parseVal (cs.length + 1) cs

/-- The `coffee_config` record of `Storage.h`, with the field types the
JSON code reads and writes: `double` fields as `Int`, `bool` fields as
`Bool`, and the two fixed-size text buffers as `List Char`. -/
structure coffee_config where
  pidKpRegular : Int
  pidTnRegular : Int
  pidOn : Bool
  pidTvRegular : Int
  pidIMaxRegular : Int
  brewSetpoint : Int
  brewTempOffset : Int
  brewTimeMs : Int
  preInfusionTimeMs : Int
  preInfusionPauseMs : Int
  pidBdOn : Bool
  pidKpBd : Int
  pidTnBd : Int
  pidTvBd : Int
  brewSwTimeSec : Int
  brewPIDDelaySec : Int
  freeToUse10 : Bool
  brewDetectionThreshold : Int
  wifiCredentialsSaved : Bool
  useStartPonM : Bool
  pidKpStart : Int
  softApEnabledCheck : Bool
  pidTnStart : Int
  wifiSSID : List Char
  wifiPassword : List Char
  weightSetpoint : Int
  steamkp : Int
  steamSetpoint : Int
  standbyModeOn : Bool
  standbyModeTime : Int
deriving DecidableEq

/-- The document `saveCoffeeConfig` builds, key by key in source order
(`Storage.cpp` lines 172-200).  The key `freeToUse10` is not among them. -/
def buildDoc (c : coffee_config) : List (List Char × JVal) :=
  [ ("pidKpRegular".data, JVal.jnum c.pidKpRegular),
    ("pidTnRegular".data, JVal.jnum c.pidTnRegular),
    ("pidOn".data, JVal.jbool c.pidOn),
    ("pidTvRegular".data, JVal.jnum c.pidTvRegular),
    ("pidIMaxRegular".data, JVal.jnum c.pidIMaxRegular),
    ("brewSetpoint".data, JVal.jnum c.brewSetpoint),
    ("brewTempOffset".data, JVal.jnum c.brewTempOffset),
    ("brewTimeMs".data, JVal.jnum c.brewTimeMs),
    ("preInfusionTimeMs".data, JVal.jnum c.preInfusionTimeMs),
    ("preInfusionPauseMs".data, JVal.jnum c.preInfusionPauseMs),
    ("pidBdOn".data, JVal.jbool c.pidBdOn),
    ("pidKpBd".data, JVal.jnum c.pidKpBd),
    ("pidTnBd".data, JVal.jnum c.pidTnBd),
    ("pidTvBd".data, JVal.jnum c.pidTvBd),
    ("brewSwTimeSec".data, JVal.jnum c.brewSwTimeSec),
    ("brewPIDDelaySec".data, JVal.jnum c.brewPIDDelaySec),
    ("brewDetectionThreshold".data, JVal.jnum c.brewDetectionThreshold),
    ("wifiCredentialsSaved".data, JVal.jbool c.wifiCredentialsSaved),
    ("useStartPonM".data, JVal.jbool c.useStartPonM),
    ("pidKpStart".data, JVal.jnum c.pidKpStart),
    ("softApEnabledCheck".data, JVal.jbool c.softApEnabledCheck),
    ("pidTnStart".data, JVal.jnum c.pidTnStart),
    ("wifiSSID".data, JVal.jstr c.wifiSSID),
    ("wifiPassword".data, JVal.jstr c.wifiPassword),
    ("weightSetpoint".data, JVal.jnum c.weightSetpoint),
    ("steamkp".data, JVal.jnum c.steamkp),
    ("steamSetpoint".data, JVal.jnum c.steamSetpoint),
    ("standbyModeOn".data, JVal.jbool c.standbyModeOn),
    ("standbyModeTime".data, JVal.jnum c.standbyModeTime) ]

/-- ArduinoJson `doc[key]`: the first member with the given key. -/
def docGet (ms : List (List Char × JVal)) (k : List Char) : Option JVal :=
  (ms.find? (fun kv => kv.1 == k)).map (fun kv => kv.2)

/-- ArduinoJson `as<double>()` on a (possibly absent) member: a stored
number converts to itself, anything else (including an absent key, which
yields the null variant) converts to zero. -/
def asDouble : Option JVal → Int
  | some (JVal.jnum n) => n
  | _ => 0

/-- ArduinoJson `as<bool>()`: a stored boolean converts to itself, a
nonzero number to `true`, anything else (including an absent key) to
`false`. -/
def asBool : Option JVal → Bool
  | some (JVal.jbool b) => b
  | some (JVal.jnum n) => decide (n ≠ 0)
  | _ => false

/-- ArduinoJson `as<char*>()`: a stored string converts to itself.  An
absent key yields the null pointer in the C++ code (which `strlcpy` then
dereferences); this embedding models that case as the empty string. -/
def asCStr : Option JVal → List Char
  | some (JVal.jstr s) => s
  | _ => []

/-- Size of the `wifiSSID` / `wifiPassword` buffers (25 + 1 in
`Storage.h`); `strlcpy` copies at most 25 characters into them. -/
def wifiBufLimit : Nat := 25

/-- The field extraction of `loadCoffeeConfig` (`Storage.cpp` lines
129-158): every field of the record is assigned from the document, the
two text fields through `strlcpy` bounded by their buffer size. -/
def loadFields (ms : List (List Char × JVal)) : coffee_config :=
  { pidKpRegular := asDouble (docGet ms "pidKpRegular".data),
    pidTnRegular := asDouble (docGet ms "pidTnRegular".data),
    pidOn := asBool (docGet ms "pidOn".data),
    pidTvRegular := asDouble (docGet ms "pidTvRegular".data),
    pidIMaxRegular := asDouble (docGet ms "pidIMaxRegular".data),
    brewSetpoint := asDouble (docGet ms "brewSetpoint".data),
    brewTempOffset := asDouble (docGet ms "brewTempOffset".data),
    brewTimeMs := asDouble (docGet ms "brewTimeMs".data),
    preInfusionTimeMs := asDouble (docGet ms "preInfusionTimeMs".data),
    preInfusionPauseMs := asDouble (docGet ms "preInfusionPauseMs".data),
    pidBdOn := asBool (docGet ms "pidBdOn".data),
    pidKpBd := asDouble (docGet ms "pidKpBd".data),
    pidTnBd := asDouble (docGet ms "pidTnBd".data),
    pidTvBd := asDouble (docGet ms "pidTvBd".data),
    brewSwTimeSec := asDouble (docGet ms "brewSwTimeSec".data),
    brewPIDDelaySec := asDouble (docGet ms "brewPIDDelaySec".data),
    freeToUse10 := asBool (docGet ms "freeToUse10".data),
    brewDetectionThreshold := asDouble (docGet ms "brewDetectionThreshold".data),
    wifiCredentialsSaved := asBool (docGet ms "wifiCredentialsSaved".data),
    useStartPonM := asBool (docGet ms "useStartPonM".data),
    pidKpStart := asDouble (docGet ms "pidKpStart".data),
    softApEnabledCheck := asBool (docGet ms "softApEnabledCheck".data),
    pidTnStart := asDouble (docGet ms "pidTnStart".data),
    wifiSSID := (asCStr (docGet ms "wifiSSID".data)).take wifiBufLimit,
    wifiPassword := (asCStr (docGet ms "wifiPassword".data)).take wifiBufLimit,
    weightSetpoint := asDouble (docGet ms "weightSetpoint".data),
    steamkp := asDouble (docGet ms "steamkp".data),
    steamSetpoint := asDouble (docGet ms "steamSetpoint".data),
    standbyModeOn := asBool (docGet ms "standbyModeOn".data),
    standbyModeTime := asDouble (docGet ms "standbyModeTime".data) }

/-- Modelled from the spec: the compiled-in default constants live in
`defaults.h`, which is not part of the provided sources.  The spec only
names them (one centrally defined constant per field), so representative
concrete values stand in here; no claim below depends on the particular
numeric values, only on the structure of `SetDefault`. -/
def AGGKP : Int := 62
def AGGTN : Int := 52
def AGGTV : Int := 11
def AGGIMAX : Int := 55
def SETPOINT : Int := 95
def TEMPOFFSET : Int := 0
def BREW_TIME : Int := 25
def PRE_INFUSION_TIME : Int := 2
def PRE_INFUSION_PAUSE_TIME : Int := 5
def AGGBKP : Int := 50
def AGGBTN : Int := 0
def AGGBTV : Int := 20
def BREW_SW_TIME : Int := 25
def BREW_PID_DELAY : Int := 10
def BD_SENSITIVITY : Int := 120
def WIFI_CREDENTIALS_SAVED : Bool := false
def STARTKP : Int := 50
def STARTTN : Int := 150
def SCALE_WEIGHTSETPOINT : Int := 30
def STEAMKP : Int := 150
def STEAMSETPOINT : Int := 120
def STANDBY_MODE_TIME : Int := 30

/-- The record `SetDefault` builds (`Storage.cpp` lines 220-253).  The
C++ local leaves `freeToUse10` uninitialized and never serializes it;
it is fixed to `false` here. -/
def defaultConfig : coffee_config :=
  { pidKpRegular := AGGKP,
    pidTnRegular := AGGTN,
    pidOn := false,
    pidTvRegular := AGGTV,
    pidIMaxRegular := AGGIMAX,
    brewSetpoint := SETPOINT,
    brewTempOffset := TEMPOFFSET,
    brewTimeMs := BREW_TIME,
    preInfusionTimeMs := PRE_INFUSION_TIME,
    preInfusionPauseMs := PRE_INFUSION_PAUSE_TIME,
    pidBdOn := false,
    pidKpBd := AGGBKP,
    pidTnBd := AGGBTN,
    pidTvBd := AGGBTV,
    brewSwTimeSec := BREW_SW_TIME,
    brewPIDDelaySec := BREW_PID_DELAY,
    freeToUse10 := false,
    brewDetectionThreshold := BD_SENSITIVITY,
    wifiCredentialsSaved := WIFI_CREDENTIALS_SAVED,
    useStartPonM := false,
    pidKpStart := STARTKP,
    softApEnabledCheck := false,
    pidTnStart := STARTTN,
    wifiSSID := [],
    wifiPassword := [],
    weightSetpoint := SCALE_WEIGHTSETPOINT,
    steamkp := STEAMKP,
    steamSetpoint := STEAMSETPOINT,
    standbyModeOn := false,
    standbyModeTime := STANDBY_MODE_TIME }

/-- EEPROM region capacity (`EEPROM_SIZE` in `Storage.cpp`). -/
def EEPROM_SIZE : Nat := 4096

/-- The machine state the storage module acts on: the RAM copy of the
EEPROM region, the driver behaviour (`beginOk`, `flushOk`), the
`skipHeaterISR` interrupt coordination flag (from `ISR.h`), and a log of
physical flushes recording `(guard value at the flush, reported
outcome)`. -/
structure Machine where
  data : List Char
  beginOk : Bool
  flushOk : Bool
  skipHeaterISR : Bool
  flushes : List (Bool × Bool)
deriving DecidableEq

/-- `EEPROM.read(i)`. -/
def eepromRead (m : Machine) (i : Nat) : Char := m.data.getD i nulChar

/-- `EEPROM.write(i, c)`: updates the RAM copy only. -/
def eepromWrite (m : Machine) (i : Nat) (c : Char) : Machine :=
  { m with data := m.data.set i c }

/-- `EEPROM.commit()`: the physical flush.  Appends one entry to the
flush log, capturing the guard value at the moment of the flush, and
reports the driver outcome. -/
def eepromCommit (m : Machine) : Bool × Machine :=
  (m.flushOk, { m with flushes := m.flushes ++ [(m.skipHeaterISR, m.flushOk)] })

/-- Sequential `EEPROM.write` of a run of characters starting at `i`. -/
def writeChars : Machine → Nat → List Char → Machine
  | m, _, [] => m
  | m, i, c :: cs => writeChars (eepromWrite m i c) (i + 1) cs

/-- `validateEEPROMData` (`Storage.cpp` lines 29-48): reads the first
byte; if it is the opening brace, attempts a full parse of the region
stream; reports whether a valid JSON value was found.  Read-only. -/
def validateEEPROMData (m : Machine) : Bool :=
  let firstByte := eepromRead m 0
  if firstByte = lbrace then (parseTop m.data).isSome else false

/-- `storageCommit` (`Storage.cpp` lines 261-274): raises
`skipHeaterISR`, performs the physical flush, lowers the flag, and maps
the driver outcome to `0` / `-1`. -/
def storageCommit (m : Machine) : Int × Machine :=
  let m1 := { m with skipHeaterISR := true }
  let p := eepromCommit m1
  let m3 := { p.2 with skipHeaterISR := false }
  (if p.1 then 0 else -1, m3)

/-- `storageFactoryReset` (`Storage.cpp` lines 87-91): fills the whole
region with the 0xFF blank pattern and commits through
`storageCommit`. -/
def storageFactoryReset (m : Machine) : Int × Machine :=
  storageCommit { m with data := List.replicate EEPROM_SIZE blankChar }

/-- `saveCoffeeConfig` (`Storage.cpp` lines 169-218): serializes the
record, writes the text at offsets `0..len-1`, writes the 0x00
terminator at offset `len`, and calls `EEPROM.commit()` directly -
without raising `skipHeaterISR` and discarding the driver outcome.
Always returns `true`. -/
def saveCoffeeConfig (config : coffee_config) (m : Machine) : Bool × Machine :=
  let jsonString := printDoc (buildDoc config)
  let m1 := writeChars m 0 jsonString
  let m2 := eepromWrite m1 jsonString.length nulChar
  let m3 := (eepromCommit m2).2
  (true, m3)

/-- `SetDefault` (`Storage.cpp` lines 220-253): builds the default
record (a local variable, not the caller's record) and saves it. -/
def SetDefault (m : Machine) : Bool × Machine :=
  saveCoffeeConfig defaultConfig m

/-- The read loop of `loadCoffeeConfig` (lines 111-117): characters from
offset 0 up to the first 0x00 byte, bounded by the region capacity. -/
def readUntilNull (m : Machine) : List Char :=
  (m.data.take EEPROM_SIZE).takeWhile (fun c => !(c == nulChar))

/-- The members of a parsed root value; lookups on a non-object root
yield the null variant in ArduinoJson, modelled by the empty member
list. -/
def objMembers : JVal → List (List Char × JVal)
  | JVal.jobj ms => ms
  | _ => []

/-- `loadCoffeeConfig` (`Storage.cpp` lines 100-161): on an invalid
region delegates to `SetDefault` (the out-parameter is not touched);
otherwise reads the null-terminated text, parses it, and on parse error
returns `false` leaving record and region untouched; on success assigns
every field of the record from the document. -/
def loadCoffeeConfig (config : coffee_config) (m : Machine) :
    Bool × coffee_config × Machine :=
  if !(validateEEPROMData m) then
    let p := SetDefault m
    (p.1, config, p.2)
  else
    let jsonString := readUntilNull m
    match parseTop jsonString with
    | none => (false, config, m)
    | some (v, _) => (true, loadFields (objMembers v), m)

/-- `storageSetup` (`Storage.cpp` lines 63-78): fails fast if
`EEPROM.begin` fails; otherwise validates the region, and if invalid
performs the factory reset (result ignored) followed by `SetDefault`,
returning that result; if valid returns `true`. -/
def storageSetup (m : Machine) : Bool × Machine :=
  if !m.beginOk then (false, m)
  else if !(validateEEPROMData m) then
    let m1 := (storageFactoryReset m).2
    SetDefault m1
  else (true, m)

/-- True when every value of the document is a scalar (the only shape the
program stores). -/
def flatDoc : List (List Char × JVal) → Bool
  | [] => true
  | (_, v) :: ms => scalarVal v && flatDoc ms

/-- No byte of the list is the 0x00 terminator. -/
def noNulChars (cs : List Char) : Bool := cs.all (fun c => !(c == nulChar))

/-- The record `loadCoffeeConfig` produces from a document that
`saveCoffeeConfig` built: every serialized field reads back, the absent
`freeToUse10` key reads as `false`, and the text fields pass through the
bounded `strlcpy` copy. -/
def roundTripRecord (r : coffee_config) : coffee_config :=
  { r with
      freeToUse10 := false,
      wifiSSID := r.wifiSSID.take wifiBufLimit,
      wifiPassword := r.wifiPassword.take wifiBufLimit }

/-- Concrete driver states used to instantiate the theorems: a blank
(factory-erased) 4096-byte region with a driver whose flush succeeds. -/
def mBlankOk : Machine :=
  { data := List.replicate EEPROM_SIZE blankChar,
    beginOk := true, flushOk := true, skipHeaterISR := false, flushes := [] }

/-- The same blank region with a driver whose flush fails. -/
def mBlankFail : Machine := { mBlankOk with flushOk := false }

/-- A record differing from the defaults (used to observe that the
out-parameter of a failed load is not populated). -/
def cfgPidOn : coffee_config := { defaultConfig with pidOn := true }

/-- A record with the never-serialized flag set. -/
def rFree : coffee_config := { defaultConfig with freeToUse10 := true }

/-- A 26-byte SSID, one byte beyond the 25-character `strlcpy` bound. -/
def ssid26 : List Char := List.replicate 26 'a'

/-- A record holding the oversize SSID. -/
def rLongSSID : coffee_config := { defaultConfig with wifiSSID := ssid26 }

/-- A region state whose full-stream parse succeeds (a 0x00 byte inside a
JSON string is accepted as a raw string character) but whose
null-terminated prefix - what `loadCoffeeConfig` reads - is an
unterminated fragment that fails to parse. -/
def mC10 : Machine :=
  { data := [lbrace, '"', 'a', '"', ':', '"'] ++
      nulChar :: '"' :: rbrace :: List.replicate 4087 blankChar,
    beginOk := true, flushOk := true, skipHeaterISR := false, flushes := [] }

theorem escChar_eq_self (c : Char) (h1 : c ≠ '"') (h2 : c ≠ '\\') :
    escChar c = [c] := by
  simp [escChar, h1, h2]

theorem psb_esc_quote (cs : List Char) :
    parseStrBodyAux false (['\\', '"'] ++ cs) =
      (match parseStrBodyAux false cs with
        | none => none
        | some (s, r) => some ('"' :: s, r)) := rfl

theorem psb_esc_bslash (cs : List Char) :
    parseStrBodyAux false (['\\', '\\'] ++ cs) =
      (match parseStrBodyAux false cs with
        | none => none
        | some (s, r) => some ('\\' :: s, r)) := rfl

theorem psb_other (c : Char) (cs : List Char) (h1 : ¬ c = '"')
    (h2 : ¬ c = '\\') :
    parseStrBodyAux false (c :: cs) =
      (match parseStrBodyAux false cs with
        | none => none
        | some (s, r) => some (c :: s, r)) := by
  rw [parseStrBodyAux, if_neg h1, if_neg h2]

theorem parseStrBody_print (s rest : List Char) :
    parseStrBody (escString s ++ '"' :: rest) = some (s, rest) := by
  unfold parseStrBody
  induction s with
  | nil => rfl
  | cons c cs ih =>
    by_cases h1 : c = '"'
    · subst h1
      have he : escChar '"' = ['\\', '"'] := rfl
      rw [escString, he, List.append_assoc, psb_esc_quote, ih]
    · by_cases h2 : c = '\\'
      · subst h2
        have he : escChar '\\' = ['\\', '\\'] := rfl
        rw [escString, he, List.append_assoc, psb_esc_bslash, ih]
      · rw [escString, escChar_eq_self c h1 h2, List.singleton_append,
          List.cons_append]
        rw [psb_other c _ h1 h2, ih]

theorem digitChar_toNat (n : Nat) (h : n < 10) :
    (Nat.digitChar n).toNat = 48 + n := by
  interval_cases n <;> rfl

theorem digitChar_isDigit (n : Nat) (h : n < 10) :
    isDigitCh (Nat.digitChar n) = true := by
  interval_cases n <;> rfl

theorem digit_ne (c x : Char) (h : isDigitCh c = true)
    (hx : isDigitCh x = false) : c ≠ x := by
  intro he
  rw [he, hx] at h
  exact Bool.noConfusion h

theorem natToCharsAux_digits (fuel : Nat) :
    ∀ n, n < fuel → ∀ c ∈ natToCharsAux fuel n, isDigitCh c = true := by
  induction fuel with
  | zero => omega
  | succ f ih =>
    intro n hn c hc
    by_cases h10 : n < 10
    · simp [natToCharsAux, h10] at hc
      subst hc
      exact digitChar_isDigit n h10
    · simp [natToCharsAux, h10] at hc
      rcases hc with hc | hc
      · have hdiv : n / 10 < f := by
          have hx : n / 10 < n := Nat.div_lt_self (by omega) (by omega)
          omega
        exact ih (n / 10) hdiv c hc
      · subst hc
        exact digitChar_isDigit _ (Nat.mod_lt n (by omega))

theorem natToChars_digits (n : Nat) :
    ∀ c ∈ natToChars n, isDigitCh c = true :=
  natToCharsAux_digits (n + 1) n (by omega)

theorem foldl_natToCharsAux (fuel : Nat) :
    ∀ n a, n < fuel →
      (natToCharsAux fuel n).foldl (fun a c => a * 10 + (c.toNat - 48)) a
        = a * 10 ^ (natToCharsAux fuel n).length + n := by
  induction fuel with
  | zero => omega
  | succ f ih =>
    intro n a hn
    by_cases h10 : n < 10
    · simp [natToCharsAux, h10, digitChar_toNat n h10]
    · have hdiv : n / 10 < f := by
        have hx : n / 10 < n := Nat.div_lt_self (by omega) (by omega)
        omega
      have hmod : n % 10 < 10 := Nat.mod_lt n (by omega)
      simp only [natToCharsAux, h10, if_false, List.foldl_append,
        List.length_append, List.foldl_cons, List.foldl_nil,
        List.length_cons, List.length_nil]
      rw [ih (n / 10) a hdiv, digitChar_toNat _ hmod, pow_succ, ← mul_assoc]
      have h48 : 48 + n % 10 - 48 = n % 10 := by omega
      rw [h48]
      generalize a * 10 ^ (natToCharsAux f (n / 10)).length = t
      omega

theorem digitsVal_natToChars (n : Nat) : digitsVal (natToChars n) = n := by
  have h := foldl_natToCharsAux (n + 1) n 0 (by omega)
  simpa [digitsVal, natToChars] using h

theorem natToChars_ne_nil (n : Nat) : natToChars n ≠ [] := by
  unfold natToChars natToCharsAux
  by_cases h : n < 10 <;> simp [h]

theorem takeDigits_nondigit (cs : List Char) (h : headDigit cs = false) :
    takeDigits cs = ([], cs) := by
  cases cs with
  | nil => rfl
  | cons c t =>
    simp only [headDigit] at h
    simp [takeDigits, h]

theorem takeDigits_append (ds rest : List Char)
    (hd : ∀ c ∈ ds, isDigitCh c = true) (h : headDigit rest = false) :
    takeDigits (ds ++ rest) = (ds, rest) := by
  induction ds with
  | nil => simpa using takeDigits_nondigit rest h
  | cons c t ih =>
    have hc : isDigitCh c = true := hd c (by simp)
    have ht : ∀ x ∈ t, isDigitCh x = true := fun x hx => hd x (by simp [hx])
    simp [takeDigits, hc, ih ht]

theorem parseNatTok_print (n : Nat) (rest : List Char)
    (h : headDigit rest = false) :
    parseNatTok (natToChars n ++ rest) = some (n, rest) := by
  unfold parseNatTok
  rw [takeDigits_append (natToChars n) rest (natToChars_digits n) h]
  simp [natToChars_ne_nil n, digitsVal_natToChars n]

theorem parseNumTok_print (n : Int) (rest : List Char)
    (h : headDigit rest = false) :
    parseNumTok (printNum n ++ rest) = some (n, rest) := by
  cases n with
  | ofNat m =>
    have hlt : ¬((Int.ofNat m) < 0) := by
      show ¬((m : Int) < 0)
      omega
    obtain ⟨c, t, hct⟩ := List.exists_cons_of_ne_nil (natToChars_ne_nil m)
    have hm : printNum (Int.ofNat m) = natToChars m := by
      rw [printNum, if_neg hlt]
      rfl
    have hcdig : isDigitCh c = true := by
      apply natToChars_digits m
      rw [hct]
      simp
    have hcm : ¬ c = '-' := digit_ne c '-' hcdig (by rfl)
    rw [hm, hct, List.cons_append, parseNumTok]
    rw [if_neg hcm, ← List.cons_append, ← hct, parseNatTok_print m rest h]
    rfl
  | negSucc m =>
    have hlt : (Int.negSucc m) < 0 := Int.negSucc_lt_zero m
    have hm : printNum (Int.negSucc m) = '-' :: natToChars (m + 1) := by
      rw [printNum, if_pos hlt]
      rfl
    rw [hm, List.cons_append, parseNumTok]
    rw [if_pos rfl, parseNatTok_print (m + 1) rest h]
    have hneg : -((m + 1 : Nat) : Int) = Int.negSucc m := by
      rw [Int.negSucc_eq]
      push_cast
      ring
    show some (-((m + 1 : Nat) : Int), rest) = some (Int.negSucc m, rest)
    rw [hneg]

theorem skipWs_cons (c : Char) (cs : List Char) (h : isWsChar c = false) :
    skipWs (c :: cs) = c :: cs := by
  rw [skipWs, h]
  rfl

theorem digit_not_ws (c : Char) (h : isDigitCh c = true) :
    isWsChar c = false := by
  cases hw : isWsChar c
  · rfl
  · exfalso
    have hc : ((c = ' ' ∨ c = Char.ofNat 10) ∨ c = Char.ofNat 9) ∨ c = Char.ofNat 13 := by
      simpa [isWsChar] using hw
    rcases hc with ((rfl | rfl) | rfl) | rfl <;> exact absurd h (by decide)

theorem printNum_ne_nil (n : Int) : printNum n ≠ [] := by
  unfold printNum
  by_cases h : n < 0
  · simp [h]
  · simp [h, natToChars_ne_nil]

theorem printNum_head (n : Int) (c : Char) (t : List Char)
    (h : printNum n = c :: t) : isDigitCh c = true ∨ c = '-' := by
  unfold printNum at h
  by_cases hn : n < 0
  · rw [if_pos hn] at h
    right
    exact (List.cons.inj h).1.symm
  · rw [if_neg hn] at h
    left
    apply natToChars_digits n.toNat
    rw [h]
    simp

theorem numHead_facts (c : Char) (h : isDigitCh c = true ∨ c = '-') :
    isWsChar c = false ∧ ¬c = '"' ∧ ¬c = lbrace ∧ ¬c = '[' ∧ ¬c = 't' ∧
      ¬c = 'f' ∧ ¬c = 'n' := by
  rcases h with h | rfl
  · exact ⟨digit_not_ws c h, digit_ne c '"' h (by decide),
      digit_ne c lbrace h (by decide), digit_ne c '[' h (by decide),
      digit_ne c 't' h (by decide), digit_ne c 'f' h (by decide),
      digit_ne c 'n' h (by decide)⟩
  · exact ⟨by decide, by decide, by decide, by decide, by decide, by decide,
      by decide⟩

theorem parseVal_succ_quote (f : Nat) (cs : List Char) :
    parseVal (f + 1) ('"' :: cs) =
      match parseStrBody cs with
      | none => none
      | some (s, r) => some (JVal.jstr s, r) := rfl

theorem parseVal_succ_obj_quote (f : Nat) (cs : List Char) :
    parseVal (f + 1) (lbrace :: '"' :: cs) =
      match parseMembers f ('"' :: cs) with
      | none => none
      | some (ms, r) => some (JVal.jobj ms, r) := rfl

theorem parseVal_succ_other (f : Nat) (c : Char) (cs : List Char)
    (hw : isWsChar c = false) (h1 : ¬c = '"') (h2 : ¬c = lbrace)
    (h3 : ¬c = '[') (h4 : ¬c = 't') (h5 : ¬c = 'f') (h6 : ¬c = 'n') :
    parseVal (f + 1) (c :: cs) =
      match parseNumTok (c :: cs) with
      | none => none
      | some (n, r) => some (JVal.jnum n, r) := by
  rw [parseVal]
  simp only [skipWs_cons c cs hw, if_neg h1, if_neg h2, if_neg h3, if_neg h4,
    if_neg h5, if_neg h6]

theorem parseVal_print_scalar (v : JVal) (fuel : Nat) (rest : List Char)
    (hs : scalarVal v = true) (hd : headDigit rest = false) :
    parseVal (fuel + 1) (printVal v ++ rest) = some (v, rest) := by
  cases v with
  | jbool b => cases b with
    | true => rfl
    | false => rfl
  | jnull => exact absurd hs (by decide)
  | jarr es => simp [scalarVal] at hs
  | jobj ms => simp [scalarVal] at hs
  | jstr s =>
    have hnorm : printVal (JVal.jstr s) ++ rest =
        '"' :: (escString s ++ '"' :: rest) := by
      simp [printVal, printStr]
    rw [hnorm, parseVal_succ_quote, parseStrBody_print]
  | jnum n =>
    obtain ⟨c, t, hct⟩ := List.exists_cons_of_ne_nil (printNum_ne_nil n)
    obtain ⟨hw, h1, h2, h3, h4, h5, h6⟩ := numHead_facts c (printNum_head n c t hct)
    have hnorm : printVal (JVal.jnum n) ++ rest = c :: (t ++ rest) := by
      simp [printVal, hct]
    rw [hnorm, parseVal_succ_other fuel c _ hw h1 h2 h3 h4 h5 h6,
      ← List.cons_append, ← hct, parseNumTok_print n rest hd]

theorem parseMembers_succ_quote (f : Nat) (cs : List Char) :
    parseMembers (f + 1) ('"' :: cs) =
      match parseStrBody cs with
      | none => none
      | some (k, r1) =>
        match skipWs r1 with
        | [] => none
        | c2 :: r2 =>
          if c2 = ':' then
            match parseVal f r2 with
            | none => none
            | some (v, r3) =>
              match skipWs r3 with
              | [] => none
              | c4 :: r4 =>
                if c4 = ',' then
                  match parseMembers f r4 with
                  | none => none
                  | some (ms, r5) => some ((k, v) :: ms, r5)
                else if c4 = rbrace then some ([(k, v)], r4)
                else none
          else none := rfl

theorem parseMembers_key_step (f : Nat) (k : List Char) (y : List Char) :
    parseMembers (f + 1) ('"' :: (escString k ++ '"' :: ':' :: y)) =
      match parseVal f y with
      | none => none
      | some (v, r3) =>
        match skipWs r3 with
        | [] => none
        | c4 :: r4 =>
          if c4 = ',' then
            match parseMembers f r4 with
            | none => none
            | some (ms, r5) => some ((k, v) :: ms, r5)
          else if c4 = rbrace then some ([(k, v)], r4)
          else none := by
  rw [parseMembers_succ_quote, parseStrBody_print]
  rfl

theorem parseMembers_print :
    ∀ (ms : List (List Char × JVal)) (fuel : Nat) (rest : List Char),
      ms ≠ [] → flatDoc ms = true → ms.length + 1 ≤ fuel →
      parseMembers fuel (printMembersAux ms ++ rest) = some (ms, rest) := by
  intro ms
  induction ms with
  | nil =>
    intro fuel rest hne _ _
    exact absurd rfl hne
  | cons kv tail ih =>
    obtain ⟨k, v⟩ := kv
    intro fuel rest _ hf hfuel
    have hsv : scalarVal v = true := by
      simp only [flatDoc, Bool.and_eq_true] at hf
      exact hf.1
    have hft : flatDoc tail = true := by
      simp only [flatDoc, Bool.and_eq_true] at hf
      exact hf.2
    simp only [List.length_cons] at hfuel
    cases fuel with
    | zero => omega
    | succ f =>
      cases f with
      | zero => omega
      | succ f2 =>
        cases tail with
        | nil =>
          have hnorm : printMembersAux [(k, v)] ++ rest =
              '"' :: (escString k ++ '"' :: ':' :: (printVal v ++ rbrace :: rest)) := by
            simp [printMembersAux, printStr]
          rw [hnorm, parseMembers_key_step,
            parseVal_print_scalar v f2 _ hsv (by rfl)]
          rfl
        | cons m2 t2 =>
          have hnorm : printMembersAux ((k, v) :: m2 :: t2) ++ rest =
              '"' :: (escString k ++ '"' :: ':' ::
                (printVal v ++ ',' :: (printMembersAux (m2 :: t2) ++ rest))) := by
            simp [printMembersAux, printStr]
          rw [hnorm, parseMembers_key_step,
            parseVal_print_scalar v f2 _ hsv (by rfl)]
          show (match parseMembers (f2 + 1) (printMembersAux (m2 :: t2) ++ rest) with
                | none => none
                | some (ms, r5) => some ((k, v) :: ms, r5)) =
            some ((k, v) :: m2 :: t2, rest)
          rw [ih (f2 + 1) rest (by simp) hft
            (by simp only [List.length_cons] at hfuel ⊢; omega)]

theorem printMembersAux_cons_shape (k : List Char) (v : JVal)
    (t : List (List Char × JVal)) :
    ∃ z, printMembersAux ((k, v) :: t) = '"' :: z := by
  cases t with
  | nil =>
    refine ⟨escString k ++ '"' :: ':' :: (printVal v ++ [rbrace]), ?_⟩
    simp [printMembersAux, printStr]
  | cons m2 t2 =>
    refine ⟨escString k ++ '"' :: ':' :: (printVal v ++ ',' :: printMembersAux (m2 :: t2)), ?_⟩
    simp [printMembersAux, printStr]

theorem parseVal_printDoc (ms : List (List Char × JVal)) (fuel : Nat)
    (rest : List Char) (hf : flatDoc ms = true)
    (hfuel : ms.length + 1 ≤ fuel) :
    parseVal (fuel + 1) (printDoc ms ++ rest) = some (JVal.jobj ms, rest) := by
  cases ms with
  | nil => rfl
  | cons kv t =>
    obtain ⟨k, v⟩ := kv
    obtain ⟨z, hz⟩ := printMembersAux_cons_shape k v t
    have hnorm : printDoc ((k, v) :: t) ++ rest =
        lbrace :: '"' :: (z ++ rest) := by
      simp [printDoc, hz]
    rw [hnorm, parseVal_succ_obj_quote, show '"' :: (z ++ rest) =
      printMembersAux ((k, v) :: t) ++ rest from by simp [hz],
      parseMembers_print ((k, v) :: t) fuel rest (by simp) hf hfuel]

theorem printMembersAux_length (ms : List (List Char × JVal)) :
    ms.length ≤ (printMembersAux ms).length := by
  induction ms with
  | nil => simp [printMembersAux]
  | cons kv t ih =>
    obtain ⟨k, v⟩ := kv
    cases t with
    | nil =>
      simp [printMembersAux, printStr]
    | cons m2 t2 =>
      simp only [printMembersAux, printStr, List.length_cons,
        List.length_append] at ih ⊢
      omega

theorem parseTop_print (ms : List (List Char × JVal)) (rest : List Char)
    (hf : flatDoc ms = true) :
    parseTop (printDoc ms ++ rest) = some (JVal.jobj ms, rest) := by
  unfold parseTop
  have hml := printMembersAux_length ms
  have hlen : ms.length + 1 ≤ (printDoc ms ++ rest).length := by
    simp only [printDoc, List.length_append, List.length_cons]
    omega
  exact parseVal_printDoc ms _ rest hf hlen

theorem writeChars_flushes (cs : List Char) :
    ∀ (m : Machine) (i : Nat), (writeChars m i cs).flushes = m.flushes := by
  induction cs with
  | nil => intro m i; rfl
  | cons c t ih => intro m i; rw [writeChars, ih]; rfl

theorem writeChars_flushOk (cs : List Char) :
    ∀ (m : Machine) (i : Nat), (writeChars m i cs).flushOk = m.flushOk := by
  induction cs with
  | nil => intro m i; rfl
  | cons c t ih => intro m i; rw [writeChars, ih]; rfl

theorem writeChars_skip (cs : List Char) :
    ∀ (m : Machine) (i : Nat),
      (writeChars m i cs).skipHeaterISR = m.skipHeaterISR := by
  induction cs with
  | nil => intro m i; rfl
  | cons c t ih => intro m i; rw [writeChars, ih]; rfl

theorem writeChars_beginOk (cs : List Char) :
    ∀ (m : Machine) (i : Nat), (writeChars m i cs).beginOk = m.beginOk := by
  induction cs with
  | nil => intro m i; rfl
  | cons c t ih => intro m i; rw [writeChars, ih]; rfl

theorem writeChars_length (cs : List Char) :
    ∀ (m : Machine) (i : Nat),
      (writeChars m i cs).data.length = m.data.length := by
  induction cs with
  | nil => intro m i; rfl
  | cons c t ih =>
    intro m i
    rw [writeChars, ih]
    simp [eepromWrite]

theorem take_append_len (a b : List Char) (n : Nat) :
    (a ++ b).take (a.length + n) = a ++ b.take n := by
  induction a with
  | nil => simp
  | cons x t ih =>
    have hs : (x :: t).length + n = (t.length + n) + 1 := by
      simp only [List.length_cons]
      omega
    rw [hs, List.cons_append, List.take_succ_cons, ih]
    rfl

theorem drop_append_len (a b : List Char) (n : Nat) :
    (a ++ b).drop (a.length + n) = b.drop n := by
  induction a with
  | nil => simp
  | cons x t ih =>
    have hs : (x :: t).length + n = (t.length + n) + 1 := by
      simp only [List.length_cons]
      omega
    rw [hs, List.cons_append, List.drop_succ_cons, ih]

theorem set_append_len (a b : List Char) (x : Char) :
    (a ++ b).set a.length x = a ++ b.set 0 x := by
  induction a with
  | nil => simp
  | cons y t ih => simp [List.set, ih]

theorem writeChars_data (cs : List Char) :
    ∀ (m : Machine) (i : Nat), i + cs.length ≤ m.data.length →
      (writeChars m i cs).data =
        m.data.take i ++ cs ++ m.data.drop (i + cs.length) := by
  induction cs with
  | nil =>
    intro m i h
    simp [writeChars]
  | cons c t ih =>
    intro m i h
    simp only [List.length_cons] at h
    have hi : i < m.data.length := by omega
    have hset : (eepromWrite m i c).data =
        m.data.take i ++ c :: m.data.drop (i + 1) := by
      simp only [eepromWrite]
      rw [List.set_eq_take_append_cons_drop]
      rw [if_pos hi]
    have hlen2 : (i + 1) + t.length ≤ (eepromWrite m i c).data.length := by
      simp only [eepromWrite, List.length_set]
      omega
    rw [writeChars, ih (eepromWrite m i c) (i + 1) hlen2, hset]
    have hA : (m.data.take i).length = i := by
      rw [List.length_take]
      omega
    have h1 : (m.data.take i ++ c :: m.data.drop (i + 1)).take (i + 1) =
        m.data.take i ++ [c] := by
      have : i + 1 = (m.data.take i).length + 1 := by omega
      rw [this, take_append_len]
      rfl
    have h2 : (m.data.take i ++ c :: m.data.drop (i + 1)).drop (i + 1 + t.length) =
        m.data.drop (i + (t.length + 1)) := by
      have hx : m.data.take i ++ c :: m.data.drop (i + 1) =
          (m.data.take i ++ [c]) ++ m.data.drop (i + 1) := by simp
      have hy : i + 1 + t.length = (m.data.take i ++ [c]).length + t.length := by
        simp only [List.length_append, List.length_cons, List.length_nil]
        omega
      rw [hx, hy, drop_append_len, List.drop_drop]
      congr 1
      omega
    rw [h1, h2]
    simp

theorem noNul_append (a b : List Char) :
    (a ++ b).all (fun c => !(c == nulChar)) =
      (a.all (fun c => !(c == nulChar)) && b.all (fun c => !(c == nulChar))) := by
  simp [List.all_append]

theorem noNulChars_append (a b : List Char) :
    noNulChars (a ++ b) = (noNulChars a && noNulChars b) := by
  simp [noNulChars, List.all_append]

theorem noNulChars_cons (c : Char) (cs : List Char) :
    noNulChars (c :: cs) = (!(c == nulChar) && noNulChars cs) := by
  simp [noNulChars]

theorem noNul_escChar (c : Char) (h : (c == nulChar) = false) :
    noNulChars (escChar c) = true := by
  by_cases h1 : c = '"'
  · subst h1
    decide
  · by_cases h2 : c = '\\'
    · subst h2
      decide
    · rw [escChar_eq_self c h1 h2]
      simp [noNulChars, h]

theorem noNul_escString (s : List Char) (h : noNulChars s = true) :
    noNulChars (escString s) = true := by
  induction s with
  | nil => decide
  | cons c t ih =>
    rw [noNulChars_cons] at h
    simp only [Bool.and_eq_true] at h
    rw [escString, noNulChars_append, noNul_escChar c (by simpa using h.1),
      ih h.2]
    rfl

theorem noNul_printStr (s : List Char) (h : noNulChars s = true) :
    noNulChars (printStr s) = true := by
  rw [printStr, noNulChars_cons, noNulChars_append, noNul_escString s h]
  decide

theorem noNul_natToChars (n : Nat) : noNulChars (natToChars n) = true := by
  simp only [noNulChars, List.all_eq_true]
  intro c hc
  have hd := natToChars_digits n c hc
  have hne : c ≠ nulChar := digit_ne c nulChar hd (by decide)
  simp [hne]

theorem noNul_printNum (n : Int) : noNulChars (printNum n) = true := by
  unfold printNum
  by_cases h : n < 0
  · rw [if_pos h, noNulChars_cons, noNul_natToChars]
    decide
  · rw [if_neg h]
    exact noNul_natToChars _

theorem noNul_printVal (v : JVal)
    (hv : ∀ s, v = JVal.jstr s → noNulChars s = true) :
    noNulChars (printVal v) = true := by
  cases v with
  | jbool b => cases b <;> decide
  | jnull => decide
  | jarr es => rfl
  | jobj ms => rfl
  | jnum n => exact noNul_printNum n
  | jstr s => exact noNul_printStr s (hv s rfl)

theorem noNul_printMembersAux (ms : List (List Char × JVal))
    (hd : ∀ kv ∈ ms, noNulChars kv.1 = true ∧
      (∀ s, kv.2 = JVal.jstr s → noNulChars s = true)) :
    noNulChars (printMembersAux ms) = true := by
  induction ms with
  | nil => decide
  | cons kv t ih =>
    obtain ⟨k, v⟩ := kv
    have hk := (hd (k, v) (by simp)).1
    have hv := (hd (k, v) (by simp)).2
    have hdt : ∀ kv ∈ t, noNulChars kv.1 = true ∧
        (∀ s, kv.2 = JVal.jstr s → noNulChars s = true) :=
      fun kv hkv => hd kv (by simp [hkv])
    cases t with
    | nil =>
      rw [show printMembersAux [(k, v)] =
        printStr k ++ ':' :: (printVal v ++ [rbrace]) from rfl]
      rw [noNulChars_append, noNul_printStr k hk, noNulChars_cons,
        noNulChars_append, noNul_printVal v hv]
      decide
    | cons m2 t2 =>
      rw [show printMembersAux ((k, v) :: m2 :: t2) =
        printStr k ++ ':' :: (printVal v ++ ',' :: printMembersAux (m2 :: t2))
        from rfl]
      rw [noNulChars_append, noNul_printStr k hk, noNulChars_cons,
        noNulChars_append, noNul_printVal v hv, noNulChars_cons, ih hdt]
      decide

theorem noNul_printDoc (ms : List (List Char × JVal))
    (hd : ∀ kv ∈ ms, noNulChars kv.1 = true ∧
      (∀ s, kv.2 = JVal.jstr s → noNulChars s = true)) :
    noNulChars (printDoc ms) = true := by
  rw [printDoc, noNulChars_cons, noNul_printMembersAux ms hd]
  decide

theorem takeWhile_nul (xs ys : List Char) (h : noNulChars xs = true) :
    (xs ++ nulChar :: ys).takeWhile (fun c => !(c == nulChar)) = xs := by
  induction xs with
  | nil => simp [List.takeWhile_cons]
  | cons c t ih =>
    rw [noNulChars_cons] at h
    simp only [Bool.and_eq_true] at h
    simp [List.takeWhile_cons, h.1, ih h.2]

theorem saveCoffeeConfig_fst (r : coffee_config) (m : Machine) :
    (saveCoffeeConfig r m).1 = true := rfl

theorem saveCoffeeConfig_flushes (r : coffee_config) (m : Machine) :
    (saveCoffeeConfig r m).2.flushes =
      m.flushes ++ [(m.skipHeaterISR, m.flushOk)] := by
  simp only [saveCoffeeConfig, eepromCommit, eepromWrite]
  simp [writeChars_flushes, writeChars_skip, writeChars_flushOk]

theorem saveCoffeeConfig_flushOk (r : coffee_config) (m : Machine) :
    (saveCoffeeConfig r m).2.flushOk = m.flushOk := by
  simp only [saveCoffeeConfig, eepromCommit, eepromWrite]
  simp [writeChars_flushOk]

theorem saveCoffeeConfig_beginOk (r : coffee_config) (m : Machine) :
    (saveCoffeeConfig r m).2.beginOk = m.beginOk := by
  simp only [saveCoffeeConfig, eepromCommit, eepromWrite]
  simp [writeChars_beginOk]

theorem saveCoffeeConfig_skip (r : coffee_config) (m : Machine) :
    (saveCoffeeConfig r m).2.skipHeaterISR = m.skipHeaterISR := by
  simp only [saveCoffeeConfig, eepromCommit, eepromWrite]
  simp [writeChars_skip]

theorem saveCoffeeConfig_data (r : coffee_config) (m : Machine)
    (h : (printDoc (buildDoc r)).length + 1 ≤ m.data.length) :
    (saveCoffeeConfig r m).2.data =
      printDoc (buildDoc r) ++
        nulChar :: m.data.drop ((printDoc (buildDoc r)).length + 1) := by
  simp only [saveCoffeeConfig, eepromCommit, eepromWrite]
  have hw : (writeChars m 0 (printDoc (buildDoc r))).data =
      printDoc (buildDoc r) ++ m.data.drop (printDoc (buildDoc r)).length := by
    have hx := writeChars_data (printDoc (buildDoc r)) m 0 (by omega)
    simpa using hx
  rw [hw]
  have hne : m.data.drop (printDoc (buildDoc r)).length ≠ [] := by
    intro heq
    rw [List.drop_eq_nil_iff] at heq
    omega
  obtain ⟨d, D2, hD⟩ := List.exists_cons_of_ne_nil hne
  have hD2 : D2 = m.data.drop ((printDoc (buildDoc r)).length + 1) := by
    have ht := congrArg List.tail hD
    rw [List.tail_drop] at ht
    have ht2 : m.data.drop ((printDoc (buildDoc r)).length + 1) = D2 := by
      simpa using ht
    exact ht2.symm
  rw [set_append_len, hD, hD2]
  rfl

theorem flatDoc_buildDoc (r : coffee_config) : flatDoc (buildDoc r) = true := rfl

theorem docStrsOk_buildDoc (r : coffee_config)
    (h1 : noNulChars r.wifiSSID = true) (h2 : noNulChars r.wifiPassword = true) :
    ∀ kv ∈ buildDoc r, noNulChars kv.1 = true ∧
      (∀ s, kv.2 = JVal.jstr s → noNulChars s = true) := by
  intro kv hkv
  simp only [buildDoc, List.mem_cons, List.not_mem_nil, or_false] at hkv
  rcases hkv with rfl | rfl | rfl | rfl | rfl | rfl | rfl | rfl | rfl | rfl |
    rfl | rfl | rfl | rfl | rfl | rfl | rfl | rfl | rfl | rfl | rfl | rfl |
    rfl | rfl | rfl | rfl | rfl | rfl | rfl <;>
    refine ⟨by rfl, ?_⟩ <;>
    intro s hs <;>
    first
      | exact JVal.noConfusion hs
      | (injection hs with hinj
         rw [← hinj]
         first
           | exact h1
           | exact h2)

theorem loadFields_buildDoc (r : coffee_config) :
    loadFields (buildDoc r) = roundTripRecord r := rfl

theorem validate_after_save (r : coffee_config) (m : Machine)
    (hlen : m.data.length = EEPROM_SIZE)
    (hfit : (printDoc (buildDoc r)).length + 1 ≤ EEPROM_SIZE) :
    validateEEPROMData (saveCoffeeConfig r m).2 = true := by
  have hdata := saveCoffeeConfig_data r m (by omega)
  unfold validateEEPROMData eepromRead
  rw [hdata]
  have hshape : printDoc (buildDoc r) ++
      nulChar :: m.data.drop ((printDoc (buildDoc r)).length + 1) =
      lbrace :: (printMembersAux (buildDoc r) ++
        nulChar :: m.data.drop ((printDoc (buildDoc r)).length + 1)) := by
    simp [printDoc]
  rw [hshape, List.getD_cons_zero, if_pos rfl, ← hshape,
    parseTop_print (buildDoc r) _ (flatDoc_buildDoc r)]
  rfl

theorem loadCoffeeConfig_valid_branch (cfg : coffee_config) (m : Machine)
    (hv : validateEEPROMData m = true) :
    loadCoffeeConfig cfg m =
      (match parseTop (readUntilNull m) with
       | none => (false, cfg, m)
       | some (v, _) => (true, loadFields (objMembers v), m)) := by
  unfold loadCoffeeConfig
  rw [hv]
  rfl

theorem loadCoffeeConfig_invalid_branch (cfg : coffee_config) (m : Machine)
    (hv : validateEEPROMData m = false) :
    loadCoffeeConfig cfg m = ((SetDefault m).1, cfg, (SetDefault m).2) := by
  unfold loadCoffeeConfig
  rw [hv]
  rfl

theorem load_after_save (r cfg : coffee_config) (m : Machine)
    (hlen : m.data.length = EEPROM_SIZE)
    (hfit : (printDoc (buildDoc r)).length + 1 ≤ EEPROM_SIZE)
    (h1 : noNulChars r.wifiSSID = true) (h2 : noNulChars r.wifiPassword = true) :
    loadCoffeeConfig cfg (saveCoffeeConfig r m).2 =
      (true, roundTripRecord r, (saveCoffeeConfig r m).2) := by
  have hdata := saveCoffeeConfig_data r m (by omega)
  have hvalid := validate_after_save r m hlen hfit
  have hread : readUntilNull (saveCoffeeConfig r m).2 = printDoc (buildDoc r) := by
    unfold readUntilNull
    rw [hdata]
    have hlen2 : (printDoc (buildDoc r) ++
        nulChar :: m.data.drop ((printDoc (buildDoc r)).length + 1)).length ≤
        EEPROM_SIZE := by
      simp only [List.length_append, List.length_cons, List.length_drop]
      omega
    rw [List.take_of_length_le hlen2]
    exact takeWhile_nul _ _ (noNul_printDoc _ (docStrsOk_buildDoc r h1 h2))
  have hparse : parseTop (readUntilNull (saveCoffeeConfig r m).2) =
      some (JVal.jobj (buildDoc r), []) := by
    rw [hread, show printDoc (buildDoc r) = printDoc (buildDoc r) ++ [] from
      by simp, parseTop_print (buildDoc r) [] (flatDoc_buildDoc r)]
  rw [loadCoffeeConfig_valid_branch cfg _ hvalid, hparse]
  rfl

theorem mBlankOk_length : mBlankOk.data.length = EEPROM_SIZE := by
  simp [mBlankOk]

theorem mC10_length : mC10.data.length = EEPROM_SIZE := by
  rw [show mC10.data = [lbrace, '"', 'a', '"', ':', '"'] ++
      nulChar :: '"' :: rbrace :: List.replicate 4087 blankChar from rfl]
  simp only [List.length_append, List.length_cons, List.length_replicate,
    List.length_nil]
  rfl

theorem validate_mBlankOk : validateEEPROMData mBlankOk = false := rfl

theorem validate_mC10 : validateEEPROMData mC10 = true := by
  unfold validateEEPROMData
  rw [if_pos (show eepromRead mC10 0 = lbrace from rfl)]
  unfold parseTop
  rw [mC10_length]
  decide

theorem parse_prefix_mC10 : parseTop (readUntilNull mC10) = none := rfl

theorem saveCoffeeConfig_length (r : coffee_config) (m : Machine) :
    (saveCoffeeConfig r m).2.data.length = m.data.length := by
  simp only [saveCoffeeConfig, eepromCommit, eepromWrite]
  simp [List.length_set, writeChars_length]

/-- C1, corrected: the claim says `saveCoffeeConfig` returns `true` if and
only if the durable commit succeeded.  In fact the function always returns
`true`: the outcome of the `EEPROM.commit()` flush is discarded, so a
commit failure is never surfaced to the caller.  The flush log records the
driver outcome while the function reports success regardless. -/
theorem C1_save_ignores_commit_result (r : coffee_config) (m : Machine) :
    (saveCoffeeConfig r m).1 = true ∧
      (saveCoffeeConfig r m).2.flushes =
        m.flushes ++ [(m.skipHeaterISR, m.flushOk)] :=
  ⟨saveCoffeeConfig_fst r m, saveCoffeeConfig_flushes r m⟩

/-- C1, counterexample to the claim as stated: on a blank region whose
driver reports flush failure, `saveCoffeeConfig` still returns `true`
while the single physical flush it performed reports failure. -/
theorem C1_claim_cex :
    (saveCoffeeConfig defaultConfig mBlankFail).1 = true ∧
      mBlankFail.flushOk = false ∧
      (saveCoffeeConfig defaultConfig mBlankFail).2.flushes = [(false, false)] := by
  refine ⟨rfl, rfl, ?_⟩
  rw [saveCoffeeConfig_flushes]
  rfl

/-- C2, code bug: the claim says every physical flush of the region runs
with `skipHeaterISR` raised.  `storageCommit` does raise and lower the
guard around its flush, but `saveCoffeeConfig` calls `EEPROM.commit()`
directly (`Storage.cpp` line 215) instead of `storageCommit`, so the
flush every save performs executes with the guard clear: its flush-log
entry records guard `false`, violating the discipline that the claim and
the flash-safety comment inside `storageCommit` state. -/
theorem C2_save_flush_unguarded :
    (saveCoffeeConfig defaultConfig mBlankOk).2.flushes = [(false, true)] ∧
      (storageCommit mBlankOk).2.flushes = [(true, true)] := by
  constructor
  · rw [saveCoffeeConfig_flushes]
    rfl
  · rfl

/-- C3, counterexample to the claim as stated: on a blank (invalid)
region, `loadCoffeeConfig` returns `true` but leaves the out-parameter
record untouched - it is not populated with the compiled-in defaults
(here it still differs from them in `pidOn`). -/
theorem C3_claim_cex :
    (loadCoffeeConfig cfgPidOn mBlankOk).1 = true ∧
      (loadCoffeeConfig cfgPidOn mBlankOk).2.1 = cfgPidOn ∧
      cfgPidOn ≠ defaultConfig := by
  rw [loadCoffeeConfig_invalid_branch cfgPidOn mBlankOk validate_mBlankOk]
  exact ⟨rfl, rfl, by decide⟩

/-- C3, amended: on a region the Validity Detector rejects,
`loadCoffeeConfig` persists the compiled-in defaults to the region
(leaving it holding a validly-encoded default record) and returns the
success of that default-save (always `true`), but it leaves the
out-parameter unchanged; the defaults reach the caller only on the next
load. -/
theorem C3_load_invalid_selfheals (cfg : coffee_config) (m : Machine)
    (hlen : m.data.length = EEPROM_SIZE)
    (hv : validateEEPROMData m = false) :
    (loadCoffeeConfig cfg m).1 = true ∧
      (loadCoffeeConfig cfg m).2.1 = cfg ∧
      (loadCoffeeConfig cfg m).2.2.data =
        printDoc (buildDoc defaultConfig) ++
          nulChar :: m.data.drop ((printDoc (buildDoc defaultConfig)).length + 1) ∧
      validateEEPROMData (loadCoffeeConfig cfg m).2.2 = true := by
  have hfit : (printDoc (buildDoc defaultConfig)).length + 1 ≤ EEPROM_SIZE := by
    decide
  rw [loadCoffeeConfig_invalid_branch cfg m hv]
  refine ⟨rfl, rfl, ?_, ?_⟩
  · exact saveCoffeeConfig_data defaultConfig m (by omega)
  · exact validate_after_save defaultConfig m hlen hfit

/-- C3, witness: the amended theorem applied to the blank region and a
non-default out-record. -/
theorem C3_load_invalid_selfheals_witness :
    (loadCoffeeConfig cfgPidOn mBlankOk).1 = true ∧
      validateEEPROMData (loadCoffeeConfig cfgPidOn mBlankOk).2.2 = true := by
  have h := C3_load_invalid_selfheals cfgPidOn mBlankOk mBlankOk_length
    validate_mBlankOk
  exact ⟨h.1, h.2.2.2⟩

/-- C4, counterexample to the claim as stated: `saveCoffeeConfig` never
writes the key `freeToUse10`, which `loadCoffeeConfig` reads, so the
round trip loses that field: saving a record with `freeToUse10 = true`
and loading it back yields `false`. -/
theorem C4_claim_cex :
    (loadCoffeeConfig defaultConfig
        (saveCoffeeConfig rFree mBlankOk).2).2.1.freeToUse10 = false ∧
      rFree.freeToUse10 = true := by
  constructor
  · rw [load_after_save rFree defaultConfig mBlankOk mBlankOk_length
      (by decide) (by rfl) (by rfl)]
    rfl
  · rfl

/-- C4, amended: for every record whose text fields are within their
25-byte maximum length (and consist of non-terminator bytes, as C strings
do), loading what `saveCoffeeConfig` persisted yields the record back
field-for-field for every field except `freeToUse10`, which the save
omits from the encoding and the load therefore reads back as `false`. -/
theorem C4_roundtrip_except_freeToUse10 (r cfg : coffee_config) (m : Machine)
    (hlen : m.data.length = EEPROM_SIZE)
    (hfit : (printDoc (buildDoc r)).length + 1 ≤ EEPROM_SIZE)
    (hnn1 : noNulChars r.wifiSSID = true)
    (hnn2 : noNulChars r.wifiPassword = true)
    (hb1 : r.wifiSSID.length ≤ wifiBufLimit)
    (hb2 : r.wifiPassword.length ≤ wifiBufLimit) :
    loadCoffeeConfig cfg (saveCoffeeConfig r m).2 =
      (true, { r with freeToUse10 := false }, (saveCoffeeConfig r m).2) := by
  rw [load_after_save r cfg m hlen hfit hnn1 hnn2]
  unfold roundTripRecord
  rw [List.take_of_length_le hb1, List.take_of_length_le hb2]

/-- C4, witness: the amended round trip at the default record on a blank
region. -/
theorem C4_roundtrip_witness :
    loadCoffeeConfig defaultConfig
        (saveCoffeeConfig defaultConfig mBlankOk).2 =
      (true, { defaultConfig with freeToUse10 := false },
        (saveCoffeeConfig defaultConfig mBlankOk).2) :=
  C4_roundtrip_except_freeToUse10 defaultConfig defaultConfig mBlankOk
    mBlankOk_length (by decide) (by rfl) (by rfl) (by decide) (by decide)

/-- C5, counterexample to the claim as stated: saving a record whose
`wifiSSID` is 26 bytes (beyond the 25-byte buffer bound) does not fail
and does not leave the region untouched - `saveCoffeeConfig` overwrites
the region and returns `true` - and loading it back silently yields the
truncated 25-byte value, again with a `true` status. -/
theorem C5_claim_cex :
    (saveCoffeeConfig rLongSSID mBlankOk).1 = true ∧
      (saveCoffeeConfig rLongSSID mBlankOk).2.data ≠ mBlankOk.data ∧
      (loadCoffeeConfig defaultConfig
          (saveCoffeeConfig rLongSSID mBlankOk).2).1 = true ∧
      (loadCoffeeConfig defaultConfig
          (saveCoffeeConfig rLongSSID mBlankOk).2).2.1.wifiSSID ≠
        rLongSSID.wifiSSID := by
  have hfit : (printDoc (buildDoc rLongSSID)).length + 1 ≤ EEPROM_SIZE := by
    decide
  have hload := load_after_save rLongSSID defaultConfig mBlankOk
    mBlankOk_length hfit (by decide) (by rfl)
  refine ⟨rfl, ?_, ?_, ?_⟩
  · have hdata := saveCoffeeConfig_data rLongSSID mBlankOk
      (by rw [mBlankOk_length]; omega)
    rw [hdata]
    intro heq
    have h0 := congrArg (fun l => l.getD 0 nulChar) heq
    simp only [printDoc, List.cons_append, List.getD_cons_zero] at h0
    rw [show mBlankOk.data.getD 0 nulChar = blankChar from rfl] at h0
    exact absurd h0 (by decide)
  · rw [hload]
  · rw [hload]
    decide

/-- C5, amended: `saveCoffeeConfig` performs no length validation: a text
field longer than the 25-byte buffer bound is serialized and written in
full over the previously stored bytes with `true` returned, and a
subsequent load silently truncates the stored value to 25 bytes via the
bounded `strlcpy` copy, also reporting success. -/
theorem C5_oversize_silently_truncated (r cfg : coffee_config) (m : Machine)
    (hlen : m.data.length = EEPROM_SIZE)
    (hfit : (printDoc (buildDoc r)).length + 1 ≤ EEPROM_SIZE)
    (hnn1 : noNulChars r.wifiSSID = true)
    (hnn2 : noNulChars r.wifiPassword = true)
    (hover : wifiBufLimit < r.wifiSSID.length) :
    (saveCoffeeConfig r m).1 = true ∧
      (saveCoffeeConfig r m).2.data =
        printDoc (buildDoc r) ++
          nulChar :: m.data.drop ((printDoc (buildDoc r)).length + 1) ∧
      (loadCoffeeConfig cfg (saveCoffeeConfig r m).2).1 = true ∧
      (loadCoffeeConfig cfg (saveCoffeeConfig r m).2).2.1.wifiSSID =
        r.wifiSSID.take wifiBufLimit ∧
      r.wifiSSID.take wifiBufLimit ≠ r.wifiSSID := by
  have hload := load_after_save r cfg m hlen hfit hnn1 hnn2
  refine ⟨rfl, saveCoffeeConfig_data r m (by omega), ?_, ?_, ?_⟩
  · rw [hload]
  · rw [hload]
    rfl
  · intro heq
    have hl := congrArg List.length heq
    rw [List.length_take] at hl
    simp only [wifiBufLimit] at hl hover
    omega

/-- C5, witness: the amended theorem at the 26-byte SSID on a blank
region. -/
theorem C5_oversize_witness :
    (loadCoffeeConfig defaultConfig
        (saveCoffeeConfig rLongSSID mBlankOk).2).2.1.wifiSSID =
      rLongSSID.wifiSSID.take wifiBufLimit :=
  (C5_oversize_silently_truncated rLongSSID defaultConfig mBlankOk
    mBlankOk_length (by decide) (by decide) (by rfl) (by decide)).2.2.2.1

/-- C6, confirmed: `storageSetup` returns `false` leaving the state
untouched when the driver cannot initialize the region; on successful
initialization it returns `true` and the region ends in a usable state:
unchanged when the Validity Detector accepts it, and otherwise
factory-reset to the 0xFF pattern and then overwritten with the committed
default encoding, which the Validity Detector accepts. -/
theorem C6_setup_spec (m : Machine) :
    (m.beginOk = false → storageSetup m = (false, m)) ∧
    (m.beginOk = true → validateEEPROMData m = true → storageSetup m = (true, m)) ∧
    (m.beginOk = true → validateEEPROMData m = false →
      (storageSetup m).1 = true ∧
      validateEEPROMData (storageSetup m).2 = true ∧
      (storageSetup m).2.data =
        printDoc (buildDoc defaultConfig) ++
          nulChar :: List.replicate
            (EEPROM_SIZE - ((printDoc (buildDoc defaultConfig)).length + 1))
            blankChar) := by
  refine ⟨?_, ?_, ?_⟩
  · intro hb
    unfold storageSetup
    rw [hb]
    rfl
  · intro hb hv
    unfold storageSetup
    rw [hb, hv]
    rfl
  · intro hb hv
    have hsetup : storageSetup m = SetDefault (storageFactoryReset m).2 := by
      unfold storageSetup
      rw [hb, hv]
      rfl
    have hm1 : (storageFactoryReset m).2.data =
        List.replicate EEPROM_SIZE blankChar := rfl
    have hlen1 : (storageFactoryReset m).2.data.length = EEPROM_SIZE := by
      rw [hm1, List.length_replicate]
    have hfit : (printDoc (buildDoc defaultConfig)).length + 1 ≤ EEPROM_SIZE := by
      decide
    rw [hsetup]
    refine ⟨rfl, validate_after_save defaultConfig _ hlen1 hfit, ?_⟩
    have hd := saveCoffeeConfig_data defaultConfig (storageFactoryReset m).2
      (by omega)
    rw [show (SetDefault (storageFactoryReset m).2).2.data =
      (saveCoffeeConfig defaultConfig (storageFactoryReset m).2).2.data from rfl,
      hd, hm1, List.drop_replicate]

/-- C6, witness: setup on a blank region with a working driver. -/
theorem C6_setup_spec_witness :
    (storageSetup mBlankOk).1 = true ∧
      validateEEPROMData (storageSetup mBlankOk).2 = true := by
  have h := (C6_setup_spec mBlankOk).2.2 rfl validate_mBlankOk
  exact ⟨h.1, h.2.1⟩

/-- C7, confirmed: `storageFactoryReset` fills the whole 4096-byte region
with the 0xFF blank byte (not zero) and commits through `storageCommit`,
returning 0 when the driver reports flush success and -1 on failure; the
Validity Detector rejects the resulting region whatever the prior state
was, because the 0xFF first byte is not the marker. -/
theorem C7_factoryReset_spec (m : Machine) :
    (storageFactoryReset m).1 = (if m.flushOk then (0 : Int) else -1) ∧
      (storageFactoryReset m).2.data = List.replicate EEPROM_SIZE blankChar ∧
      validateEEPROMData (storageFactoryReset m).2 = false := by
  refine ⟨rfl, rfl, ?_⟩
  unfold validateEEPROMData eepromRead
  rw [show (storageFactoryReset m).2.data.getD 0 nulChar = blankChar from rfl,
    if_neg (by decide : ¬blankChar = lbrace)]

/-- C8, confirmed: the Validity Detector equals the conjunction of the
marker-byte probe on the first byte and the success of the full
structural parse of the region stream; when the first byte is not the
marker the result is `false` with the parse contributing nothing, and
the detector is read-only by construction - it returns a Bool and leaves
the machine state untouched. -/
theorem C8_validate_spec (m : Machine) :
    validateEEPROMData m =
      (decide (eepromRead m 0 = lbrace) && (parseTop m.data).isSome) := by
  unfold validateEEPROMData
  by_cases h : eepromRead m 0 = lbrace
  · rw [if_pos h]
    simp [h]
  · rw [if_neg h]
    simp [h]

/-- C9, confirmed: `saveCoffeeConfig` writes exactly the serialized bytes
at offsets 0 through len-1 plus a single 0x00 terminator at offset len,
and every byte strictly beyond the terminator up to the 4096-byte
capacity is the corresponding byte of the prior region content; the
region length is unchanged.  (The fit hypothesis is automatic in the C++
program, whose bounded fields keep the encoding far below 4096 bytes.) -/
theorem C9_save_frame (r : coffee_config) (m : Machine)
    (hlen : m.data.length = EEPROM_SIZE)
    (hfit : (printDoc (buildDoc r)).length + 1 ≤ EEPROM_SIZE) :
    (saveCoffeeConfig r m).2.data =
      printDoc (buildDoc r) ++
        nulChar :: m.data.drop ((printDoc (buildDoc r)).length + 1) ∧
      (saveCoffeeConfig r m).2.data.length = EEPROM_SIZE := by
  refine ⟨saveCoffeeConfig_data r m (by omega), ?_⟩
  rw [saveCoffeeConfig_length, hlen]

/-- C9, witness: the frame property at the default record on the blank
region. -/
theorem C9_save_frame_witness :
    (saveCoffeeConfig defaultConfig mBlankOk).2.data.length = EEPROM_SIZE :=
  (C9_save_frame defaultConfig mBlankOk mBlankOk_length (by decide)).2

/-- C10, confirmed: when the Validity Detector accepts the region but the
parse of the null-terminated prefix inside `loadCoffeeConfig` fails, the
load returns `false` and leaves both the out-parameter record and the
machine state - hence the stored bytes - completely unchanged. -/
theorem C10_load_decode_fail (cfg : coffee_config) (m : Machine)
    (hv : validateEEPROMData m = true)
    (hp : parseTop (readUntilNull m) = none) :
    loadCoffeeConfig cfg m = (false, cfg, m) := by
  rw [loadCoffeeConfig_valid_branch cfg m hv, hp]

/-- C10, witness: a region whose full-stream parse succeeds (it carries a
raw 0x00 byte inside a JSON string) while its null-terminated prefix is
an unterminated fragment that fails to parse. -/
theorem C10_load_decode_fail_witness :
    loadCoffeeConfig defaultConfig mC10 = (false, defaultConfig, mC10) :=
  C10_load_decode_fail defaultConfig mC10 validate_mC10 parse_prefix_mC10
